import Mathlib

/-!
# Verification of the USTCchess session protocol engine

A shallow embedding of the session/game client in `src/main/game.ts` and of the
position utilities of the chessboard component, together with proofs of the
specified properties: request/response correlation, dispatcher routing,
extension negotiation diagnostics, check detection, and coordinator teardown.
-/

set_option autoImplicit false

namespace USTCchess

/-! ## Data model (from `src/types/chessboard.ts`, `src/types/map.ts`, and the
extension declarations). A `Chess` carries a camp, a royal flag (`isChief`) and a
display name; a `Chessboard` is a 2-D grid of optional pieces; positions are
pairs of integer coordinates. -/

structure Chess where
  camp : Int
  isChief : Bool
  name : String
deriving Repr, DecidableEq

abbrev Chessboard := List (List (Option Chess))

abbrev Position := Int × Int

/-- Modelled from the spec: map metadata (type `Map` of `src/types/map.ts`, not
included in the sources) carries a display name and a required-extension mapping
from extension key to required version, in original iteration order. -/
structure GameMap where
  name : String
  extensions : List (String × String)
deriving Repr, DecidableEq

/-- Extension identity, from the `ExtensionInfo` interface of the extension
declarations (`src/unnamed/part_001`). -/
structure ExtensionInfo where
  key : String
  name : String
  author : String
  version : String
deriving Repr, DecidableEq

/-! ## Decimal printing of integers

`getIsChecked` compares positions through `JSON.stringify`; we model the
serialization of an integer as its JavaScript decimal string. The digits are
produced most-significant first by repeated division, with explicit fuel for
structural termination (fuel `n + 1` always suffices since `n / 10 < n`). -/

def digitChar : Nat → Char
  | 0 => '0' | 1 => '1' | 2 => '2' | 3 => '3' | 4 => '4'
  | 5 => '5' | 6 => '6' | 7 => '7' | 8 => '8' | 9 => '9'
  | _ => '*'

/-- Inverse digit table; non-digit characters map to `10`. -/
def digitVal : Char → Nat
  | '0' => 0 | '1' => 1 | '2' => 2 | '3' => 3 | '4' => 4
  | '5' => 5 | '6' => 6 | '7' => 7 | '8' => 8 | '9' => 9
  | _ => 10

def isDigitCh (c : Char) : Bool := digitVal c < 10

def natToDigits : Nat → Nat → List Char → List Char
  | 0, _, acc => acc
  | fuel + 1, n, acc =>
    if n < 10 then digitChar n :: acc
    else natToDigits fuel (n / 10) (digitChar (n % 10) :: acc)

/-- The decimal digit characters of a natural number, most significant first. -/
def natChars (n : Nat) : List Char := natToDigits (n + 1) n []

/-- The characters of the JavaScript decimal rendering of an integer: a leading
minus sign for negative values, digits otherwise. -/
def intChars (i : Int) : List Char :=
  if i < 0 then '-' :: natChars (-i).toNat else natChars i.toNat

/-- Value of a most-significant-first digit string (left inverse of printing). -/
def charsVal (l : List Char) : Nat :=
  l.foldl (fun v c => v * 10 + digitVal c) 0

/-- Model of `JSON.stringify` applied to a position `[i, j]` (a two-element
array of integers): the characters `[`, the decimal rendering of the first
coordinate, `,`, the decimal rendering of the second, `]`, with no whitespace. -/
def jsonStringifyPos (p : Position) : String :=
  String.mk ('[' :: (intChars p.1 ++ ',' :: (intChars p.2 ++ [']'])))

/-- `isEqualPosition` from the chessboard component (`src/unnamed/part_000`):
`pos1[0] === pos2[0] && pos1[1] === pos2[1]`. -/
def isEqualPosition (pos1 pos2 : Position) : Bool :=
  pos1.1 == pos2.1 && pos1.2 == pos2.2

/-! ## Wire values

Payloads travelling over the connection are JavaScript values. The universe of
values we model: primitives, arrays, string-keyed objects, and two opaque
constructors embedding the structured domain values a payload can carry (map
metadata in `connect-success`, a board snapshot in a `get-state` response). -/

inductive JValue where
  | null
  | bool (b : Bool)
  | num (n : Int)
  | str (s : String)
  | arr (elems : List JValue)
  | obj (fields : List (String × JValue))
  | mapVal (m : GameMap)
  | boardVal (b : Chessboard)

/-- JavaScript truthiness of a value. -/
def truthy : JValue → Bool
  | .null => false
  | .bool b => b
  | .num n => n != 0
  | .str s => s != ""
  | .arr _ => true
  | .obj _ => true
  | .mapVal _ => true
  | .boardVal _ => true

/-- Whether `typeof v === 'object'` holds in JavaScript (true for `null`,
arrays and all objects). -/
def typeofObject : JValue → Bool
  | .null => true
  | .arr _ => true
  | .obj _ => true
  | .mapVal _ => true
  | .boardVal _ => true
  | _ => false

/-- The JavaScript `'k' in v` test: field presence on a plain object. -/
def hasField (v : JValue) (k : String) : Bool :=
  match v with
  | .obj fields => fields.any (fun kv => kv.1 == k)
  | _ => false

/-- Field projection on an object value, `null` when absent (models property
access on a payload). -/
def getFieldD (v : JValue) (k : String) : JValue :=
  match v with
  | .obj fields => (((fields.find? (fun kv => kv.1 == k)).map (fun kv => kv.2)).getD .null)
  | _ => .null

def asInt : JValue → Int
  | .num n => n
  | _ => 0

def asStr : JValue → String
  | .str s => s
  | _ => ""

def asGameMap : JValue → GameMap
  | .mapVal m => m
  | _ => ⟨"", []⟩

def asBoard : JValue → Chessboard
  | .boardVal b => b
  | _ => []

/-- Strict equality of a payload against the capacity-reject reason:
`data.data === 'too-many-clients'` (game.ts:177). -/
def isTooManyClients : JValue → Bool
  | .str s => s == "too-many-clients"
  | _ => false

/-- Response shape from `src/types/game.ts`, as constructed by the dispatcher:
`{ status: data.type, data: data.data }` (game.ts:147). -/
structure Response where
  status : String
  data : JValue

/-- A structured inbound envelope `{type, data?, id?}` (game.ts:136). A missing
`data` field is the `null`-like absent value; `id`, when present, is a string. -/
structure Envelope where
  type : String
  data : JValue
  id : Option String

/-- An inbound frame: either it parses as an envelope or it is malformed
(`JSON.parse` throws, game.ts:137-142). -/
inductive RawMsg where
  | invalid (raw : String)
  | valid (env : Envelope)

/-! ## Correlator state

`messageHandlers : Map<string, handler>` (game.ts:64) keyed by correlation id,
where every registered handler has the fixed shape installed by
`contactToServer` (delete the key, then resolve the promise, game.ts:231-234).
We therefore record the map as its set of registered keys, together with the
observable trace of `resolve` calls: `resolutions` lists, in order, every
resolution performed on behalf of some correlation id. -/

structure CorrState where
  handlers : List String
  resolutions : List (String × Response)

/-- The resolution produced by the catch block of `contactToServer`
(game.ts:237). -/
def sendFailResponse : Response := ⟨"error", .str "Failed to send message."⟩

/-- The resolution produced by the expired request timer (game.ts:243). -/
def timeoutResponse : Response := ⟨"error", .str "Timeout waiting for response."⟩

/-- A registered handler firing on a matching response: the entry is deleted
and the promise resolved with `{status: data.type, data: data.data}`
(game.ts:144-148 with the handler of game.ts:231-234). -/
def deliverResponse (s : CorrState) (i : String) (r : Response) : CorrState :=
  { handlers := s.handlers.filter (fun x => x != i),
    resolutions := s.resolutions ++ [(i, r)] }

/-- The request timer firing (game.ts:240-245): if the entry still exists it is
deleted and the promise resolved with the timeout error, otherwise nothing. -/
def timerFire (s : CorrState) (i : String) : CorrState :=
  if s.handlers.contains i then
    { handlers := s.handlers.filter (fun x => x != i),
      resolutions := s.resolutions ++ [(i, timeoutResponse)] }
  else s

/-- The synchronous body of `contactToServer` (game.ts:229-238): under
`try { const message = JSON.stringify(...); messageHandlers.set(messageId, h);
ws.send(message) } catch { resolve(transport error) }`. `stringifyOk` is whether
serialization succeeded and `sendOk` whether the underlying send succeeded; a
throw at either point reaches the same catch, but the handler registration
happens between the two. -/
def contactToServerSync (s : CorrState) (messageId : String)
    (stringifyOk sendOk : Bool) : CorrState :=
  if stringifyOk then
    let s1 : CorrState := { s with handlers := messageId :: s.handlers }
    if sendOk then s1
    else { s1 with resolutions := s1.resolutions ++ [(messageId, sendFailResponse)] }
  else { s with resolutions := s.resolutions ++ [(messageId, sendFailResponse)] }

/-! ## Extension negotiation -/

/-- Modelled from the spec: `checkExtensions` (imported from `./main`, not
included in the sources) — negotiation passes iff every required key is present
in the available list with an exactly matching version. -/
def checkExtensions (available : List ExtensionInfo)
    (required : List (String × String)) : Bool :=
  required.all (fun kv => available.any (fun e => e.key == kv.1 && e.version == kv.2))

/-- JavaScript `Array.prototype.join(sep)`. -/
def joinSep (sep : String) : List String → String
  | [] => ""
  | [x] => x
  | x :: y :: xs => x ++ sep ++ joinSep sep (y :: xs)

/-- One `key@version` line for a required entry (game.ts:158). -/
def fmtRequired (kv : String × String) : String := kv.1 ++ "@" ++ kv.2

/-- One `key@version` line for an available extension (game.ts:161). -/
def fmtAvailable (e : ExtensionInfo) : String := e.key ++ "@" ++ e.version

/-- The `requiredExtensions` string of the mismatch dialog (game.ts:157-159). -/
def requiredLines (required : List (String × String)) : String :=
  joinSep "\n  " (required.map fmtRequired)

/-- The `existingExtensions` string of the mismatch dialog (game.ts:160-161):
the joined lines, or `无` when the joined string is falsy (empty). -/
def existingLines (available : List ExtensionInfo) : String :=
  let s := joinSep "\n  " (available.map fmtAvailable)
  if s == "" then "无" else s

/-- The `detail` text of the mismatch dialog (game.ts:166). -/
def mismatchDetail (required : List (String × String))
    (available : List ExtensionInfo) : String :=
  "所需扩展：\n  " ++ requiredLines required ++ "\n已有扩展：\n  " ++ existingLines available

/-- Stated from the spec (section 4.3) for comparison with the source: the
diagnostic enumerates the full required set as `key@version` lines and the full
available set the same way, with an explicit `无` (none) marker when the
available set is empty, in original iteration order. -/
def mismatchDetailSpec (required : List (String × String))
    (available : List ExtensionInfo) : String :=
  "所需扩展：\n  " ++ joinSep "\n  " (required.map fmtRequired) ++
    "\n已有扩展：\n  " ++
    (if available.isEmpty then "无" else joinSep "\n  " (available.map fmtAvailable))

/-! ## Session state and dispatcher -/

/-- The mutable fields of a `GameClient` relevant to message handling: the
session fields of game.ts:55-67 together with the fields inherited from
`GameData` (`mapData`, `chessboard`, `extensions`; `src/utils/game.ts`, not
included in the sources, modelled from the spec as plain data) and the
correlator state. -/
structure ClientState where
  isLocal : Bool
  isConnectSuccess : Bool
  camp : Int
  mapData : Option GameMap
  extensions : List ExtensionInfo
  chessboard : Chessboard
  isGameEnd : Bool
  corr : CorrState

/-- Observable side effects of a dispatch step. -/
inductive Effect where
  | logError (msg : String)
  | sendToServer (type : String)
  | notifyRenderer (channel : String) (payload : JValue)
  | showDialog (title message detail : String)
  | closeSession (content : Option String)
  | delayedClose (content : String)
  | setTitle (title : String)

/-- The push-handling `switch` of `onMessage` (game.ts:150-193), reached when
the envelope does not match a registered pending request. `loaded` is the
extension list produced by the external `autoGetNeededExtensions` resolution
step and installed by `loadExtensions` (both outside the sources; modelled from
the spec as the locally available extension list). -/
def pushDispatch (st : ClientState) (env : Envelope)
    (loaded : List ExtensionInfo) : ClientState × List Effect :=
  if env.type == "connect-success" then
    let st1 := { st with isConnectSuccess := true }
    let camp := asInt (getFieldD env.data "camp")
    let mapData := asGameMap (getFieldD env.data "mapData")
    let st2 := { st1 with mapData := some mapData, extensions := loaded }
    if !(st2.isLocal || checkExtensions st2.extensions mapData.extensions) then
      (st2, [.showDialog "错误" "已启用扩展与服务器不匹配"
               (mismatchDetail mapData.extensions st2.extensions),
             .closeSession none])
    else
      ({ st2 with camp := camp },
       [.sendToServer "prepared",
        .setTitle (mapData.name ++ " - " ++ (if st2.isLocal then "本地模式" else "联机模式")),
        .notifyRenderer "connect-success" .null])
  else if env.type == "connect-fail" then
    if isTooManyClients env.data then (st, [.delayedClose "游戏房间已满"])
    else (st, [.closeSession (some (asStr env.data))])
  else if env.type == "game-start" || env.type == "change-turn" then
    (st, [.notifyRenderer env.type .null])
  else if env.type == "game-end" then
    ({ st with isGameEnd := true }, [.notifyRenderer "game-end" env.data])
  else
    (st, [.logError "Unknown Response"])

/-- `onMessage` (game.ts:135-195). A frame that fails to parse is logged and
dropped; an envelope whose `id` is truthy and registered is routed to the
pending-request handler; everything else goes to the push `switch`. -/
def onMessage (st : ClientState) (raw : RawMsg)
    (loaded : List ExtensionInfo) : ClientState × List Effect :=
  match raw with
  | .invalid r => (st, [.logError ("Invalid Response: " ++ r)])
  | .valid env =>
    match env.id with
    | some i =>
      if i != "" && st.corr.handlers.contains i then
        ({ st with corr := deliverResponse st.corr i ⟨env.type, env.data⟩ }, [])
      else pushDispatch st env loaded
    | none => pushDispatch st env loaded

/-! ## Event system for the correlator guarantee

Discrete events on the session's cooperative event queue: an inbound frame
(processed by `onMessage`) or the expiry of the request timer armed for a given
correlation id (game.ts:240-245). -/

inductive GameEvent where
  | inbound (raw : RawMsg) (loaded : List ExtensionInfo)
  | timer (i : String)

def stepClient (st : ClientState) (e : GameEvent) : ClientState :=
  match e with
  | .inbound raw loaded => (onMessage st raw loaded).1
  | .timer i => { st with corr := timerFire st.corr i }

def runClient (st : ClientState) (evs : List GameEvent) : ClientState :=
  evs.foldl stepClient st

/-- The resolutions performed on behalf of correlation id `i`, in order. -/
def resolutionsFor (s : CorrState) (i : String) : List Response :=
  (s.resolutions.filter (fun p => p.1 == i)).map (fun p => p.2)

/-- The outcome the first id-relevant event settles: the payload of the first
matching inbound response, or the timeout error if the timer fires first. -/
def firstOutcome (i : String) : List GameEvent → Option Response
  | [] => none
  | .inbound (.valid env) _ :: rest =>
    if env.id == some i then some ⟨env.type, env.data⟩ else firstOutcome i rest
  | .inbound (.invalid _) _ :: rest => firstOutcome i rest
  | .timer j :: rest =>
    if j == i then some timeoutResponse else firstOutcome i rest

/-! ## The `get-state` arm of `contact` (game.ts:205-213) -/

/-- `contact('get-state', data)` after the awaited server response `res`: store
the snapshot when the response is a success whose data is a truthy object with
a `chessboard` field, and return the response unchanged. -/
def contactGetState (st : ClientState) (res : Response) : ClientState × Response :=
  if res.status == "success" then
    if truthy res.data && typeofObject res.data && hasField res.data "chessboard" then
      ({ st with chessboard := asBoard (getFieldD res.data "chessboard") }, res)
    else (st, res)
  else (st, res)

/-! ## Check detection (game.ts:249-263) -/

/-- Row-major enumeration of the board cells with their integer coordinates,
mirroring the two nested index loops of `getIsChecked`. -/
def boardCells (board : Chessboard) : List (Position × Option Chess) :=
  board.enum.flatMap (fun row =>
    row.2.enum.map (fun cell => ((((row.1 : Int), (cell.1 : Int)) : Position), cell.2)))

/-- The test `chess?.camp === this.camp`: an empty square never compares equal
to a numeric camp. -/
def isOwn (camp : Int) : Option Chess → Bool
  | some c => c.camp == camp
  | none => false

def cellIsChief : Option Chess → Bool
  | some c => c.isChief
  | none => false

/-- `getIsChecked` (game.ts:249-263), with the move generator
(`this.getAvailableMoves`, inherited from `GameData` outside the sources) as an
explicit parameter. Candidates are the caller's royal pieces in scan order; the
opponent-reach set is accumulated as serialized strings (`JSON.stringify`) and
membership of a candidate is decided on its serialization. The JavaScript
`Set` is modelled as the list of inserted strings, which has the same
membership. -/
def getIsChecked (board : Chessboard) (camp : Int)
    (movesFrom : Position → List Position) : List Position :=
  let cells := boardCells board
  let myChiefPos := cells.filterMap (fun pc =>
    if isOwn camp pc.2 then (if cellIsChief pc.2 then some pc.1 else none) else none)
  let opponentMoves := cells.flatMap (fun pc =>
    if isOwn camp pc.2 then [] else (movesFrom pc.1).map jsonStringifyPos)
  myChiefPos.filter (fun p => opponentMoves.contains (jsonStringifyPos p))

/-- Stated from the claim for comparison with the source: the check detector
with the opponent-reach union taken over every OCCUPIED square not holding one
of the caller's own pieces, and structural membership. -/
def checkDetectorClaim (board : Chessboard) (camp : Int)
    (movesFrom : Position → List Position) : List Position :=
  let cells := boardCells board
  let royal := cells.filterMap (fun pc =>
    if isOwn camp pc.2 then (if cellIsChief pc.2 then some pc.1 else none) else none)
  let reach := cells.flatMap (fun pc =>
    match pc.2 with
    | some c => if c.camp == camp then [] else movesFrom pc.1
    | none => [])
  royal.filter (fun p => reach.contains p)

/-- The amended check detector: as the claim, but the opponent-reach union
ranges over every square not holding one of the caller's own pieces, empty
squares included, with structural membership. -/
def checkDetectorAmended (board : Chessboard) (camp : Int)
    (movesFrom : Position → List Position) : List Position :=
  let cells := boardCells board
  let royal := cells.filterMap (fun pc =>
    if isOwn camp pc.2 then (if cellIsChief pc.2 then some pc.1 else none) else none)
  let reach := cells.flatMap (fun pc =>
    if isOwn camp pc.2 then [] else movesFrom pc.1)
  royal.filter (fun p => reach.contains p)

/-! ## Session coordinator (`createClients`, game.ts:278-316) -/

structure ClientRec where
  id : Nat
  windowAlive : Bool
deriving Repr, DecidableEq

/-- The closure state of `createClients`: the `isClosed` guard, the owned
clients, whether the `contact` IPC handler is registered, and how many times
the external `stopGame` teardown callback has run. -/
structure CoordState where
  isClosed : Bool
  clients : List ClientRec
  contactHandlerRegistered : Bool
  stopGameCount : Nat
deriving Repr, DecidableEq

/-- The shared `close` closure (game.ts:285-291): a no-op when already closed;
otherwise it sets the guard, destroys every owned window, unregisters the
`contact` handler, and invokes `stopGame`. -/
def coordClose (s : CoordState) : CoordState :=
  if s.isClosed then s
  else
    { isClosed := true,
      clients := s.clients.map (fun c => { c with windowAlive := false }),
      contactHandlerRegistered := false,
      stopGameCount := s.stopGameCount + 1 }

/-- Routing of a local `contact` invocation by sender surface id
(game.ts:302-307): with no registered IPC handler the invoke fails; otherwise
the matching client handles it, and an unknown id throws. -/
def routeContact (s : CoordState) (senderId : Nat) : Except String Nat :=
  if s.contactHandlerRegistered then
    match s.clients.find? (fun c => c.id == senderId) with
    | some c => .ok c.id
    | none => .error "The window is not a game window."
  else .error "No handler registered"

/-! ## Lemmas: decimal printing and serialization injectivity -/

theorem natToDigits_acc (fuel : Nat) : ∀ (n : Nat) (acc : List Char),
    natToDigits fuel n acc = natToDigits fuel n [] ++ acc := by
  induction fuel with
  | zero => intro n acc; rfl
  | succ fuel ih =>
    intro n acc
    by_cases h : n < 10
    · simp [natToDigits, h]
    · simp only [natToDigits, if_neg h]
      rw [ih (n / 10) (digitChar (n % 10) :: acc), ih (n / 10) [digitChar (n % 10)]]
      simp

theorem digitVal_digitChar : ∀ d : Nat, d < 10 → digitVal (digitChar d) = d := by decide

theorem isDigitCh_digitChar : ∀ d : Nat, d < 10 → isDigitCh (digitChar d) = true := by decide

theorem charsVal_append (l1 l2 : List Char) :
    charsVal (l1 ++ l2) = l2.foldl (fun v c => v * 10 + digitVal c) (charsVal l1) := by
  simp [charsVal, List.foldl_append]

theorem charsVal_natToDigits : ∀ (fuel n : Nat), n ≤ fuel →
    charsVal (natToDigits fuel n []) = n := by
  intro fuel
  induction fuel with
  | zero =>
    intro n h
    have : n = 0 := Nat.le_zero.mp h
    subst this
    rfl
  | succ fuel ih =>
    intro n h
    by_cases h10 : n < 10
    · simp [natToDigits, h10, charsVal]
      rw [digitVal_digitChar n h10]
    · simp only [natToDigits, if_neg h10]
      rw [natToDigits_acc, charsVal_append]
      have hlt : n / 10 < n := Nat.div_lt_self (by omega) (by omega)
      rw [ih (n / 10) (by omega)]
      simp only [List.foldl_cons, List.foldl_nil]
      rw [digitVal_digitChar (n % 10) (Nat.mod_lt n (by omega))]
      omega

theorem charsVal_natChars (n : Nat) : charsVal (natChars n) = n :=
  charsVal_natToDigits (n + 1) n (Nat.le_succ n)

theorem natChars_injective {m n : Nat} (h : natChars m = natChars n) : m = n := by
  have hm := charsVal_natChars m
  rw [h, charsVal_natChars] at hm
  omega

theorem mem_natToDigits : ∀ (fuel n : Nat) (acc : List Char),
    (∀ c ∈ acc, isDigitCh c = true) →
    ∀ c ∈ natToDigits fuel n acc, isDigitCh c = true := by
  intro fuel
  induction fuel with
  | zero => intro n acc hacc; simpa [natToDigits] using hacc
  | succ fuel ih =>
    intro n acc hacc c hc
    by_cases h10 : n < 10
    · simp only [natToDigits, if_pos h10] at hc
      rcases List.mem_cons.mp hc with h | h
      · rw [h]; exact isDigitCh_digitChar n h10
      · exact hacc c h
    · simp only [natToDigits, if_neg h10] at hc
      refine ih (n / 10) (digitChar (n % 10) :: acc) ?_ c hc
      intro c' hc'
      rcases List.mem_cons.mp hc' with h | h
      · rw [h]; exact isDigitCh_digitChar (n % 10) (Nat.mod_lt n (by omega))
      · exact hacc c' h

theorem mem_natChars (n : Nat) : ∀ c ∈ natChars n, isDigitCh c = true :=
  mem_natToDigits (n + 1) n [] (by simp)

theorem natToDigits_ne_nil : ∀ (fuel n : Nat) (acc : List Char),
    acc ≠ [] → natToDigits fuel n acc ≠ [] := by
  intro fuel
  induction fuel with
  | zero => intro n acc hacc; simpa [natToDigits] using hacc
  | succ fuel ih =>
    intro n acc hacc
    by_cases h10 : n < 10
    · simp [natToDigits, h10]
    · simp only [natToDigits, if_neg h10]
      exact ih (n / 10) (digitChar (n % 10) :: acc) (by simp)

theorem natChars_ne_nil (n : Nat) : natChars n ≠ [] := by
  show natToDigits (n + 1) n [] ≠ []
  by_cases h10 : n < 10
  · simp [natToDigits, h10]
  · simp only [natToDigits, if_neg h10]
    exact natToDigits_ne_nil n (n / 10) [digitChar (n % 10)] (by simp)

theorem mem_intChars (i : Int) : ∀ c ∈ intChars i, c = '-' ∨ isDigitCh c = true := by
  intro c hc
  unfold intChars at hc
  by_cases h : i < 0
  · rw [if_pos h] at hc
    rcases List.mem_cons.mp hc with h1 | h1
    · exact Or.inl h1
    · exact Or.inr (mem_natChars _ c h1)
  · rw [if_neg h] at hc
    exact Or.inr (mem_natChars _ c hc)

theorem comma_not_mem_intChars (i : Int) : ',' ∉ intChars i := by
  intro h
  rcases mem_intChars i ',' h with h1 | h1
  · exact absurd h1 (by decide)
  · exact absurd h1 (by decide)

theorem intChars_injective {i j : Int} (h : intChars i = intChars j) : i = j := by
  unfold intChars at h
  by_cases hi : i < 0 <;> by_cases hj : j < 0
  · rw [if_pos hi, if_pos hj] at h
    have h2 : natChars (-i).toNat = natChars (-j).toNat := by
      simpa using h
    have := natChars_injective h2
    omega
  · rw [if_pos hi, if_neg hj] at h
    have hm : '-' ∈ natChars j.toNat := h ▸ List.mem_cons_self '-' _
    have := mem_natChars j.toNat '-' hm
    exact absurd this (by decide)
  · rw [if_neg hi, if_pos hj] at h
    have hm : '-' ∈ natChars i.toNat := h.symm ▸ List.mem_cons_self '-' _
    have := mem_natChars i.toNat '-' hm
    exact absurd this (by decide)
  · rw [if_neg hi, if_neg hj] at h
    have := natChars_injective h
    omega

theorem split_comma : ∀ (A C B D : List Char), ',' ∉ A → ',' ∉ C →
    A ++ ',' :: B = C ++ ',' :: D → A = C ∧ B = D := by
  intro A
  induction A with
  | nil =>
    intro C B D _ hC h
    cases C with
    | nil => simpa using h
    | cons c C' =>
      exfalso
      simp only [List.nil_append, List.cons_append, List.cons.injEq] at h
      exact hC (h.1 ▸ List.mem_cons_self c C')
  | cons a A' ih =>
    intro C B D hA hC h
    cases C with
    | nil =>
      exfalso
      simp only [List.nil_append, List.cons_append, List.cons.injEq] at h
      exact hA (h.1 ▸ List.mem_cons_self a A')
    | cons c C' =>
      simp only [List.cons_append, List.cons.injEq] at h
      obtain ⟨hac, h2⟩ := h
      have hA' : ',' ∉ A' := fun hm => hA (List.mem_cons_of_mem a hm)
      have hC' : ',' ∉ C' := fun hm => hC (List.mem_cons_of_mem c hm)
      obtain ⟨e1, e2⟩ := ih C' B D hA' hC' h2
      exact ⟨by rw [hac, e1], e2⟩

theorem jsonStringifyPos_injective {p q : Position}
    (h : jsonStringifyPos p = jsonStringifyPos q) : p = q := by
  unfold jsonStringifyPos at h
  injection h with h
  rw [List.cons.injEq] at h
  obtain ⟨hA, hBD⟩ := split_comma _ _ _ _ (comma_not_mem_intChars p.1)
    (comma_not_mem_intChars q.1) h.2
  have hlen : (intChars p.2).length = (intChars q.2).length := by
    have := congrArg List.length hBD
    simpa using this
  obtain ⟨hB, _⟩ := List.append_inj hBD hlen
  have e1 := intChars_injective hA
  have e2 := intChars_injective hB
  cases p; cases q
  simp_all

theorem contains_map_stringify (l : List Position) (p : Position) :
    (l.map jsonStringifyPos).contains (jsonStringifyPos p) = l.contains p := by
  have hiff : jsonStringifyPos p ∈ l.map jsonStringifyPos ↔ p ∈ l := by
    constructor
    · intro h
      obtain ⟨a, _, he⟩ := List.mem_map.mp h
      cases jsonStringifyPos_injective he
      assumption
    · intro h
      exact List.mem_map_of_mem _ h
  rw [Bool.eq_iff_iff]
  simpa [List.elem_iff] using hiff

/-- C4: the equality the program uses to compare positions — membership of a
royal position in the serialized opponent-reach set in `getIsChecked`, and the
`isEqualPosition` test of the board component — coincides with structural
equality (componentwise equality of the integer coordinates), and the
serialized-string comparison never decides a pair of positions differently. -/
theorem position_equality_structural :
    ∀ p q : Position,
      (isEqualPosition p q = true ↔ p = q) ∧
      (jsonStringifyPos p = jsonStringifyPos q ↔ p = q) ∧
      (∀ l : List Position,
        (l.map jsonStringifyPos).contains (jsonStringifyPos p) = l.contains p) := by
  intro p q
  refine ⟨?_, ?_, ?_⟩
  · cases p; cases q
    simp [isEqualPosition, Prod.ext_iff]
  · constructor
    · exact jsonStringifyPos_injective
    · intro h; rw [h]
  · intro l
    exact contains_map_stringify l p

/-! ## Check detection -/

theorem map_flatMap_stringify (cells : List (Position × Option Chess)) (camp : Int)
    (movesFrom : Position → List Position) :
    (cells.flatMap
        (fun pc => if isOwn camp pc.2 then [] else (movesFrom pc.1).map jsonStringifyPos))
      = (cells.flatMap (fun pc => if isOwn camp pc.2 then [] else movesFrom pc.1)).map
          jsonStringifyPos := by
  rw [List.map_flatMap]
  apply congrArg (List.flatMap cells)
  funext pc
  by_cases h : isOwn camp pc.2 <;> simp [h]

/-- C3 counterexample: on a 1×2 board holding only the caller's royal piece and
one empty square, with a move generator reporting a move to the royal square
from every square, `getIsChecked` marks the royal piece as checked (the
generator is invoked on the empty square as well), while the claim's
occupied-squares-only detector returns the empty list. -/
theorem getIsChecked_counterexample :
    getIsChecked [[some ⟨1, true, "帅"⟩, none]] 1 (fun _ => [((0 : Int), (0 : Int))])
      = [((0 : Int), (0 : Int))] ∧
    checkDetectorClaim [[some ⟨1, true, "帅"⟩, none]] 1 (fun _ => [((0 : Int), (0 : Int))])
      = [] := ⟨rfl, rfl⟩

/-- C3 amended: for every board, camp, and move-generation function,
`getIsChecked` returns exactly the positions of the caller's own royal pieces
that are members of the union of destinations returned by the move-generation
function over every square (occupied or empty) not holding one of the caller's
own pieces, in row-major board-scan order; with no royal piece the result is
empty, and several royal pieces are evaluated independently. -/
theorem getIsChecked_eq_amended :
    ∀ (board : Chessboard) (camp : Int) (movesFrom : Position → List Position),
      getIsChecked board camp movesFrom = checkDetectorAmended board camp movesFrom := by
  intro board camp movesFrom
  simp only [getIsChecked, checkDetectorAmended]
  apply List.filter_congr
  intro p _
  rw [map_flatMap_stringify]
  exact contains_map_stringify _ p

/-! ## Extension negotiation diagnostics -/

theorem joinSep_cons_length (sep x : String) (xs : List String) :
    x.length ≤ (joinSep sep (x :: xs)).length := by
  cases xs with
  | nil => simp [joinSep]
  | cons y ys =>
    simp [joinSep, String.length_append]
    omega

theorem fmtAvailable_length (e : ExtensionInfo) : 1 ≤ (fmtAvailable e).length := by
  have h : ("@" : String).length = 1 := rfl
  simp [fmtAvailable, String.length_append, h]
  omega

theorem existingLines_eq_spec (available : List ExtensionInfo) :
    existingLines available
      = (if available.isEmpty then "无"
         else joinSep "\n  " (available.map fmtAvailable)) := by
  cases available with
  | nil => rfl
  | cons e es =>
    have h1 : 1 ≤ (joinSep "\n  " (fmtAvailable e :: es.map fmtAvailable)).length :=
      le_trans (fmtAvailable_length e) (joinSep_cons_length _ _ _)
    have hne : joinSep "\n  " (fmtAvailable e :: es.map fmtAvailable) ≠ "" := by
      intro h
      rw [h] at h1
      simp at h1
    simp [existingLines, hne]

/-- C5: the mismatch diagnostic equals the spec's format — the full required
set as one `key@version` line per entry and the full available set the same
way, with the explicit `无` (none) marker exactly when the available set is
empty, in original iteration order; and on the particular instance with
required `a@1, b@2` and available `a@1`, negotiation fails and the diagnostic
lists both required entries and exactly the one available entry. -/
theorem mismatch_diagnostic_complete :
    (∀ (required : List (String × String)) (available : List ExtensionInfo),
        mismatchDetail required available = mismatchDetailSpec required available) ∧
    (checkExtensions [⟨"a", "Ext A", "author", "1"⟩] [("a", "1"), ("b", "2")] = false ∧
     mismatchDetail [("a", "1"), ("b", "2")] [⟨"a", "Ext A", "author", "1"⟩]
       = "所需扩展：\n  a@1\n  b@2\n已有扩展：\n  a@1" ∧
     ([("a", "1"), ("b", "2")].map fmtRequired) = ["a@1", "b@2"] ∧
     ([(⟨"a", "Ext A", "author", "1"⟩ : ExtensionInfo)].map fmtAvailable) = ["a@1"]) := by
  constructor
  · intro required available
    simp only [mismatchDetail, mismatchDetailSpec, requiredLines]
    rw [existingLines_eq_spec]
  · exact ⟨rfl, rfl, rfl, rfl⟩

/-! ## Dispatcher routing -/

theorem resolutionsFor_deliver_self (s : CorrState) (i : String) (r : Response) :
    resolutionsFor (deliverResponse s i r) i = resolutionsFor s i ++ [r] := by
  simp [resolutionsFor, deliverResponse, List.filter_append]

theorem contains_filter_self (l : List String) (i : String) :
    (l.filter (fun x => x != i)).contains i = false := by
  have hmem : i ∉ l.filter (fun x => x != i) := by
    intro h
    have := (List.mem_filter.mp h).2
    simp at this
  exact Bool.eq_false_iff.mpr (fun h => hmem (List.elem_iff.mp h))

/-- C7: an inbound frame that parses and carries a truthy correlation id with a
registered pending request is delivered to that request's handler (its entry is
removed and its promise resolved with the response payload) with no push-side
effect and no other state change; a frame that fails to parse is logged and
dropped with the entire session state (pending requests, camp, map data,
chessboard, ended-flag) unchanged. -/
theorem dispatcher_routing :
    ∀ (st : ClientState) (loaded : List ExtensionInfo),
      (∀ raw, onMessage st (.invalid raw) loaded
          = (st, [.logError ("Invalid Response: " ++ raw)])) ∧
      (∀ (env : Envelope) (i : String), env.id = some i → i ≠ "" →
          st.corr.handlers.contains i = true →
          onMessage st (.valid env) loaded
              = ({ st with corr := deliverResponse st.corr i ⟨env.type, env.data⟩ }, []) ∧
          resolutionsFor (onMessage st (.valid env) loaded).1.corr i
              = resolutionsFor st.corr i ++ [⟨env.type, env.data⟩] ∧
          (onMessage st (.valid env) loaded).1.corr.handlers.contains i = false) := by
  intro st loaded
  constructor
  · intro raw; rfl
  · intro env i hid hne hreg
    have hmem : i ∈ st.corr.handlers := List.elem_iff.mp hreg
    refine ⟨?_, ?_, ?_⟩
    · simp [onMessage, hid, hne, hmem]
    · simp [onMessage, hid, hne, hmem, resolutionsFor_deliver_self]
    · simp [onMessage, hid, hne, hmem, deliverResponse, List.mem_filter]

/-- C7 witness: a registered correlation id on a concrete session state. -/
theorem dispatcher_routing_witness :
    ((some "k7" : Option String) = some "k7" ∧ "k7" ≠ "" ∧
      (⟨["k7"], []⟩ : CorrState).handlers.contains "k7" = true) ∧
    onMessage (⟨false, true, 1, none, [], [], false, ⟨["k7"], []⟩⟩ : ClientState)
        (.valid ⟨"success", .null, some "k7"⟩) []
      = ({ (⟨false, true, 1, none, [], [], false, ⟨["k7"], []⟩⟩ : ClientState) with
            corr := deliverResponse ⟨["k7"], []⟩ "k7" ⟨"success", .null⟩ }, []) :=
  ⟨⟨rfl, by decide, by decide⟩,
   ((dispatcher_routing ⟨false, true, 1, none, [], [], false, ⟨["k7"], []⟩⟩ []).2
      ⟨"success", .null, some "k7"⟩ "k7" rfl (by decide) (by decide)).1⟩

/-- C6: a local session skips the extension-compatibility check on handshake
success: regardless of the loaded extensions and the map's requirements, the
session records its camp, sends the `prepared` acknowledgment and notifies the
presentation layer that the handshake is complete. -/
theorem local_session_skips_extension_check :
    ∀ (st : ClientState) (d : JValue) (loaded : List ExtensionInfo),
      st.isLocal = true →
      onMessage st (.valid ⟨"connect-success", d, none⟩) loaded =
        ({ st with isConnectSuccess := true,
                   mapData := some (asGameMap (getFieldD d "mapData")),
                   extensions := loaded,
                   camp := asInt (getFieldD d "camp") },
         [.sendToServer "prepared",
          .setTitle ((asGameMap (getFieldD d "mapData")).name ++ " - " ++ "本地模式"),
          .notifyRenderer "connect-success" .null]) := by
  intro st d loaded hlocal
  simp [onMessage, pushDispatch, hlocal]

/-- C6 witness: a concrete local session whose loaded extensions do not match
the map's requirements still completes the handshake. -/
theorem local_session_skips_extension_check_witness :
    (⟨true, false, 0, none, [], [], false, ⟨[], []⟩⟩ : ClientState).isLocal = true ∧
    onMessage (⟨true, false, 0, none, [], [], false, ⟨[], []⟩⟩ : ClientState)
        (.valid ⟨"connect-success",
          .obj [("camp", .num 1), ("mapData", .mapVal ⟨"m", [("a", "1")]⟩)], none⟩) []
      = ({ (⟨true, false, 0, none, [], [], false, ⟨[], []⟩⟩ : ClientState) with
            isConnectSuccess := true,
            mapData := some (asGameMap (getFieldD
              (.obj [("camp", .num 1), ("mapData", .mapVal ⟨"m", [("a", "1")]⟩)]) "mapData")),
            extensions := [],
            camp := asInt (getFieldD
              (.obj [("camp", .num 1), ("mapData", .mapVal ⟨"m", [("a", "1")]⟩)]) "camp") },
         [.sendToServer "prepared",
          .setTitle ((asGameMap (getFieldD
              (.obj [("camp", .num 1), ("mapData", .mapVal ⟨"m", [("a", "1")]⟩)]) "mapData")).name
            ++ " - " ++ "本地模式"),
          .notifyRenderer "connect-success" .null]) :=
  ⟨rfl, local_session_skips_extension_check _ _ _ rfl⟩

/-- C9: a connect-failure push carrying the capacity reason closes the session
after a delay with the room-full message; any other reason closes immediately
with that reason as the displayed message. -/
theorem connect_fail_close_policy :
    ∀ (st : ClientState) (d : JValue) (loaded : List ExtensionInfo),
      (d = .str "too-many-clients" →
        onMessage st (.valid ⟨"connect-fail", d, none⟩) loaded
          = (st, [.delayedClose "游戏房间已满"])) ∧
      (d ≠ .str "too-many-clients" →
        onMessage st (.valid ⟨"connect-fail", d, none⟩) loaded
          = (st, [.closeSession (some (asStr d))])) := by
  intro st d loaded
  constructor
  · intro h; subst h; rfl
  · intro h
    have hb : isTooManyClients d = false := by
      cases d
      case str s =>
        simp only [isTooManyClients]
        rw [beq_eq_false_iff_ne]
        intro he
        exact h (by rw [he])
      all_goals rfl
    simp [onMessage, pushDispatch, hb]

/-- C9 witness: the capacity reason triggers the delayed room-full close on a
concrete state. -/
theorem connect_fail_close_policy_witness :
    (JValue.str "too-many-clients" = .str "too-many-clients") ∧
    onMessage (⟨false, false, 0, none, [], [], false, ⟨[], []⟩⟩ : ClientState)
        (.valid ⟨"connect-fail", .str "too-many-clients", none⟩) []
      = (⟨false, false, 0, none, [], [], false, ⟨[], []⟩⟩, [.delayedClose "游戏房间已满"]) :=
  ⟨rfl, (connect_fail_close_policy ⟨false, false, 0, none, [], [], false, ⟨[], []⟩⟩
      (.str "too-many-clients") []).1 rfl⟩

/-! ## The get-state snapshot update -/

theorem hasField_truthy (v : JValue) (k : String) (h : hasField v k = true) :
    truthy v = true ∧ typeofObject v = true := by
  cases v
  case obj fields => exact ⟨rfl, rfl⟩
  all_goals exact absurd h (by simp [hasField])

/-- C10: for `contact('get-state')`, the stored chessboard snapshot is replaced
by the response payload's chessboard exactly when the response has status
`success` and its data is an object containing a `chessboard` field; on any
other outcome the snapshot (and every other session field) is unchanged, and in
every case the server's response is returned to the caller unmodified. -/
theorem get_state_snapshot_update :
    ∀ (st : ClientState) (res : Response),
      (contactGetState st res).2 = res ∧
      (res.status = "success" → hasField res.data "chessboard" = true →
        (contactGetState st res).1
          = { st with chessboard := asBoard (getFieldD res.data "chessboard") }) ∧
      (¬(res.status = "success" ∧ hasField res.data "chessboard" = true) →
        (contactGetState st res).1 = st) := by
  intro st res
  refine ⟨?_, ?_, ?_⟩
  · simp only [contactGetState]
    split <;> (try split) <;> rfl
  · intro hs hf
    obtain ⟨ht, hto⟩ := hasField_truthy res.data "chessboard" hf
    simp [contactGetState, hs, hf, ht, hto]
  · intro hn
    by_cases hs : res.status = "success"
    · have hf : hasField res.data "chessboard" = false := by
        rcases Bool.eq_false_or_eq_true (hasField res.data "chessboard") with h | h
        · exact absurd ⟨hs, h⟩ hn
        · exact h
      simp [contactGetState, hs, hf]
    · have hb : (res.status == "success") = false := beq_eq_false_iff_ne.mpr hs
      simp [contactGetState, hb]

/-- C10 witness: a success response carrying a chessboard is stored; the
response itself is returned unmodified. -/
theorem get_state_snapshot_update_witness :
    ((("success" : String) = "success") ∧
      hasField (.obj [("chessboard", .boardVal [[none]])]) "chessboard" = true) ∧
    (contactGetState (⟨false, true, 1, none, [], [], false, ⟨[], []⟩⟩ : ClientState)
        ⟨"success", .obj [("chessboard", .boardVal [[none]])]⟩).1
      = { (⟨false, true, 1, none, [], [], false, ⟨[], []⟩⟩ : ClientState) with
            chessboard := asBoard (getFieldD
              (.obj [("chessboard", .boardVal [[none]])]) "chessboard") } :=
  ⟨⟨rfl, rfl⟩,
   ((get_state_snapshot_update ⟨false, true, 1, none, [], [], false, ⟨[], []⟩⟩
      ⟨"success", .obj [("chessboard", .boardVal [[none]])]⟩).2).1 rfl rfl⟩

/-! ## Correlator: exactly-once resolution -/

theorem pushDispatch_corr (st : ClientState) (env : Envelope)
    (loaded : List ExtensionInfo) : (pushDispatch st env loaded).1.corr = st.corr := by
  simp only [pushDispatch]
  split_ifs <;> rfl

theorem onMessage_push_none (st : ClientState) (env : Envelope)
    (loaded : List ExtensionInfo) (h : env.id = none) :
    onMessage st (.valid env) loaded = pushDispatch st env loaded := by
  simp [onMessage, h]

theorem onMessage_push_empty (st : ClientState) (env : Envelope)
    (loaded : List ExtensionInfo) {j : String} (h : env.id = some j) (hj : j = "") :
    onMessage st (.valid env) loaded = pushDispatch st env loaded := by
  simp [onMessage, h, hj]

theorem onMessage_push_unregistered (st : ClientState) (env : Envelope)
    (loaded : List ExtensionInfo) {j : String} (h : env.id = some j)
    (hj : j ∉ st.corr.handlers) :
    onMessage st (.valid env) loaded = pushDispatch st env loaded := by
  simp [onMessage, h, hj]

theorem onMessage_deliver (st : ClientState) (env : Envelope)
    (loaded : List ExtensionInfo) {j : String} (h : env.id = some j)
    (hj1 : j ≠ "") (hj2 : j ∈ st.corr.handlers) :
    onMessage st (.valid env) loaded
      = ({ st with corr := deliverResponse st.corr j ⟨env.type, env.data⟩ }, []) := by
  simp [onMessage, h, hj1, hj2]

theorem contains_filter_ne (l : List String) {i j : String} (hij : i ≠ j) :
    (l.filter (fun x => x != j)).contains i = l.contains i := by
  rw [Bool.eq_iff_iff]
  constructor
  · intro h
    exact List.elem_iff.mpr (List.mem_filter.mp (List.elem_iff.mp h)).1
  · intro h
    exact List.elem_iff.mpr (List.mem_filter.mpr ⟨List.elem_iff.mp h, by simp [hij]⟩)

theorem deliver_resolutionsFor_ne (s : CorrState) {i j : String} (r : Response)
    (hij : j ≠ i) : resolutionsFor (deliverResponse s j r) i = resolutionsFor s i := by
  have hb : (j == i) = false := beq_eq_false_iff_ne.mpr hij
  simp [deliverResponse, resolutionsFor, List.filter_append, hb]

theorem deliver_contains_ne (s : CorrState) {i j : String} (r : Response)
    (hij : i ≠ j) :
    (deliverResponse s j r).handlers.contains i = s.handlers.contains i :=
  contains_filter_ne s.handlers hij

theorem timerFire_resolutionsFor_ne (s : CorrState) {i j : String} (hij : j ≠ i) :
    resolutionsFor (timerFire s j) i = resolutionsFor s i := by
  have hb : (j == i) = false := beq_eq_false_iff_ne.mpr hij
  unfold timerFire
  cases hreg : s.handlers.contains j
  · simp
  · simp [resolutionsFor, List.filter_append, hb]

theorem timerFire_contains_ne (s : CorrState) {i j : String} (hij : i ≠ j) :
    (timerFire s j).handlers.contains i = s.handlers.contains i := by
  unfold timerFire
  cases hreg : s.handlers.contains j
  · simp
  · simp only [if_true]
    exact contains_filter_ne s.handlers hij

theorem stepClient_not_registered (i : String) (st : ClientState) (e : GameEvent)
    (h : st.corr.handlers.contains i = false) :
    resolutionsFor (stepClient st e).corr i = resolutionsFor st.corr i ∧
    (stepClient st e).corr.handlers.contains i = false := by
  cases e with
  | timer j =>
    by_cases hij : j = i
    · subst hij
      have hmem : j ∉ st.corr.handlers := by
        intro hm
        have hcontra : st.corr.handlers.contains j = true := List.elem_iff.mpr hm
        rw [h] at hcontra
        cases hcontra
      constructor <;> simp [stepClient, timerFire, hmem, h]
    · refine ⟨timerFire_resolutionsFor_ne st.corr hij, ?_⟩
      show (timerFire st.corr j).handlers.contains i = false
      rw [timerFire_contains_ne st.corr (fun he => hij he.symm)]
      exact h
  | inbound raw loaded =>
    cases raw with
    | invalid r => exact ⟨rfl, h⟩
    | valid env =>
      show resolutionsFor (onMessage st (.valid env) loaded).1.corr i
            = resolutionsFor st.corr i ∧
          (onMessage st (.valid env) loaded).1.corr.handlers.contains i = false
      cases henvid : env.id with
      | none =>
        rw [onMessage_push_none st env loaded henvid, pushDispatch_corr]
        exact ⟨rfl, h⟩
      | some j =>
        by_cases hj1 : j = ""
        · rw [onMessage_push_empty st env loaded henvid hj1, pushDispatch_corr]
          exact ⟨rfl, h⟩
        by_cases hj2 : j ∈ st.corr.handlers
        · have hij : i ≠ j := by
            intro he
            rw [← he] at hj2
            have hh : st.corr.handlers.contains i = true := List.elem_iff.mpr hj2
            rw [h] at hh
            cases hh
          rw [onMessage_deliver st env loaded henvid hj1 hj2]
          refine ⟨deliver_resolutionsFor_ne st.corr _ (fun he => hij he.symm), ?_⟩
          show (deliverResponse st.corr j _).handlers.contains i = false
          rw [deliver_contains_ne st.corr _ hij]
          exact h
        · rw [onMessage_push_unregistered st env loaded henvid hj2, pushDispatch_corr]
          exact ⟨rfl, h⟩

theorem runClient_frame (i : String) :
    ∀ (evs : List GameEvent) (st : ClientState),
      st.corr.handlers.contains i = false →
      resolutionsFor (runClient st evs).corr i = resolutionsFor st.corr i := by
  intro evs
  induction evs with
  | nil => intro st _; rfl
  | cons e rest ih =>
    intro st h
    obtain ⟨h1, h2⟩ := stepClient_not_registered i st e h
    show resolutionsFor (runClient (stepClient st e) rest).corr i = resolutionsFor st.corr i
    rw [ih (stepClient st e) h2, h1]

theorem timerFire_eq_deliver (s : CorrState) (i : String)
    (h : s.handlers.contains i = true) :
    timerFire s i = deliverResponse s i timeoutResponse := by
  simp [timerFire, deliverResponse, List.elem_iff.mp h]

/-- C1: a pending request registered by `contactToServer` resolves exactly
once, via exactly one of a matching inbound response or the timeout: over any
event sequence in which the request timer fires, exactly one resolution is
performed for the correlation id — the payload of the matching response if it
arrives while the pending entry exists (the later timer firing resolves
nothing), and the timeout error if the timer fires first (a later matching
response resolves nothing). -/
theorem correlator_exactly_once :
    ∀ (evs : List GameEvent) (st : ClientState) (i : String),
      i ≠ "" →
      st.corr.handlers.contains i = true →
      resolutionsFor st.corr i = [] →
      GameEvent.timer i ∈ evs →
      resolutionsFor (runClient st evs).corr i
        = [(firstOutcome i evs).getD timeoutResponse] := by
  intro evs
  induction evs with
  | nil => intro st i _ _ _ ht; simp at ht
  | cons e rest ih =>
    intro st i hne hreg hres ht
    show resolutionsFor (runClient (stepClient st e) rest).corr i = _
    cases e with
    | timer j =>
      by_cases hij : j = i
      · subst hij
        have hstep : stepClient st (.timer j)
            = { st with corr := deliverResponse st.corr j timeoutResponse } := by
          show ({ st with corr := timerFire st.corr j } : ClientState) = _
          rw [timerFire_eq_deliver st.corr j hreg]
        rw [hstep]
        have hc : ({ st with corr := deliverResponse st.corr j timeoutResponse }
            : ClientState).corr.handlers.contains j = false :=
          contains_filter_self st.corr.handlers j
        rw [runClient_frame j rest _ hc]
        show resolutionsFor (deliverResponse st.corr j timeoutResponse) j = _
        rw [resolutionsFor_deliver_self, hres]
        simp [firstOutcome]
      · have ht' : GameEvent.timer i ∈ rest := by
          rcases List.mem_cons.mp ht with h | h
          · exfalso; injection h with h; exact hij h.symm
          · exact h
        have h2 : (stepClient st (.timer j)).corr.handlers.contains i = true := by
          show (timerFire st.corr j).handlers.contains i = true
          rw [timerFire_contains_ne st.corr (fun he => hij he.symm)]
          exact hreg
        have h1 : resolutionsFor (stepClient st (.timer j)).corr i
            = resolutionsFor st.corr i := timerFire_resolutionsFor_ne st.corr hij
        rw [ih (stepClient st (.timer j)) i hne h2 (h1.trans hres) ht']
        have hb : (j == i) = false := beq_eq_false_iff_ne.mpr hij
        simp [firstOutcome, hb]
    | inbound raw loaded =>
      cases raw with
      | invalid r =>
        have ht' : GameEvent.timer i ∈ rest := by
          rcases List.mem_cons.mp ht with h | h
          · cases h
          · exact h
        have hstep : stepClient st (.inbound (.invalid r) loaded) = st := rfl
        rw [hstep, ih st i hne hreg hres ht']
        simp [firstOutcome]
      | valid env =>
        by_cases hid : env.id = some i
        · have hmem : i ∈ st.corr.handlers := List.elem_iff.mp hreg
          have hstep : stepClient st (.inbound (.valid env) loaded)
              = { st with corr := deliverResponse st.corr i ⟨env.type, env.data⟩ } := by
            show (onMessage st (.valid env) loaded).1 = _
            rw [onMessage_deliver st env loaded hid hne hmem]
          rw [hstep]
          have hc : ({ st with corr := deliverResponse st.corr i ⟨env.type, env.data⟩ }
              : ClientState).corr.handlers.contains i = false :=
            contains_filter_self st.corr.handlers i
          rw [runClient_frame i rest _ hc]
          show resolutionsFor (deliverResponse st.corr i ⟨env.type, env.data⟩) i = _
          rw [resolutionsFor_deliver_self, hres]
          simp [firstOutcome, hid]
        · have ht' : GameEvent.timer i ∈ rest := by
            rcases List.mem_cons.mp ht with h | h
            · cases h
            · exact h
          have hpres : resolutionsFor
                (stepClient st (.inbound (.valid env) loaded)).corr i
                  = resolutionsFor st.corr i ∧
              (stepClient st (.inbound (.valid env) loaded)).corr.handlers.contains i
                  = true := by
            show resolutionsFor (onMessage st (.valid env) loaded).1.corr i = _ ∧
                (onMessage st (.valid env) loaded).1.corr.handlers.contains i = _
            cases henvid : env.id with
            | none =>
              rw [onMessage_push_none st env loaded henvid, pushDispatch_corr]
              exact ⟨rfl, hreg⟩
            | some j =>
              have hji : j ≠ i := fun he => hid (by rw [henvid, he])
              by_cases hj1 : j = ""
              · rw [onMessage_push_empty st env loaded henvid hj1, pushDispatch_corr]
                exact ⟨rfl, hreg⟩
              · by_cases hj2 : j ∈ st.corr.handlers
                · rw [onMessage_deliver st env loaded henvid hj1 hj2]
                  refine ⟨deliver_resolutionsFor_ne st.corr _ hji, ?_⟩
                  show (deliverResponse st.corr j _).handlers.contains i = true
                  rw [deliver_contains_ne st.corr _ (fun he => hji he.symm)]
                  exact hreg
                · rw [onMessage_push_unregistered st env loaded henvid hj2,
                    pushDispatch_corr]
                  exact ⟨rfl, hreg⟩
          obtain ⟨hp1, hp2⟩ := hpres
          rw [ih _ i hne hp2 (hp1.trans hres) ht']
          have hb : (env.id == some i) = false := beq_eq_false_iff_ne.mpr hid
          simp [firstOutcome, hb]

/-- C1 witness: a concrete run — the matching response arrives first, the timer
fires later; the request resolves exactly once, with the response payload. -/
theorem correlator_exactly_once_witness :
    (("r1" : String) ≠ "" ∧
     (⟨false, true, 1, none, [], [], false, ⟨["r1"], []⟩⟩
        : ClientState).corr.handlers.contains "r1" = true ∧
     resolutionsFor (⟨["r1"], []⟩ : CorrState) "r1" = [] ∧
     GameEvent.timer "r1"
       ∈ [GameEvent.inbound (.valid ⟨"success", .num 5, some "r1"⟩) [],
          GameEvent.timer "r1"]) ∧
    resolutionsFor
        (runClient ⟨false, true, 1, none, [], [], false, ⟨["r1"], []⟩⟩
          [GameEvent.inbound (.valid ⟨"success", .num 5, some "r1"⟩) [],
           GameEvent.timer "r1"]).corr "r1"
      = [(firstOutcome "r1"
            [GameEvent.inbound (.valid ⟨"success", .num 5, some "r1"⟩) [],
             GameEvent.timer "r1"]).getD timeoutResponse] :=
  ⟨⟨by decide, by decide, rfl, by simp⟩,
   correlator_exactly_once
     [GameEvent.inbound (.valid ⟨"success", .num 5, some "r1"⟩) [],
      GameEvent.timer "r1"]
     ⟨false, true, 1, none, [], [], false, ⟨["r1"], []⟩⟩ "r1"
     (by decide) (by decide) rfl (by simp)⟩

/-! ## Transmission failure in `contactToServer` -/

/-- C2 counterexample: when serialization succeeds but the underlying send
throws, `contactToServer` resolves with the transport error, yet the handler
for the fresh correlation id — registered before the send — remains in the
pending-request map, contrary to the claim that no handler is left registered
on a transmission failure. -/
theorem contactToServer_sendFail_leaves_handler :
    (contactToServerSync ⟨[], []⟩ "x" true false).resolutions
        = [("x", sendFailResponse)] ∧
    ¬((contactToServerSync ⟨[], []⟩ "x" true false).handlers.contains "x" = false) :=
  ⟨rfl, by decide⟩

/-- C2 amended: on a serialization failure `contactToServer` resolves
immediately with the transport error and no handler is registered for the
correlation id; on a failure of the underlying send it also resolves
immediately with the transport error, but the handler — registered before the
send — remains in the pending-request map (until the request timer removes
it); when both steps succeed, the handler is registered and nothing is
resolved. -/
theorem contactToServer_transmit_failure :
    ∀ (s : CorrState) (messageId : String) (stringifyOk sendOk : Bool),
      s.handlers.contains messageId = false →
      (stringifyOk = false →
        (contactToServerSync s messageId stringifyOk sendOk).resolutions
            = s.resolutions ++ [(messageId, sendFailResponse)] ∧
        (contactToServerSync s messageId stringifyOk sendOk).handlers.contains messageId
            = false) ∧
      (stringifyOk = true → sendOk = false →
        (contactToServerSync s messageId stringifyOk sendOk).resolutions
            = s.resolutions ++ [(messageId, sendFailResponse)] ∧
        (contactToServerSync s messageId stringifyOk sendOk).handlers.contains messageId
            = true) ∧
      (stringifyOk = true → sendOk = true →
        contactToServerSync s messageId stringifyOk sendOk
            = { s with handlers := messageId :: s.handlers }) := by
  intro s messageId ok1 ok2 hfresh
  refine ⟨?_, ?_, ?_⟩
  · intro h1; subst h1; exact ⟨rfl, hfresh⟩
  · intro h1 h2; subst h1; subst h2
    refine ⟨rfl, ?_⟩
    exact List.elem_iff.mpr (by exact List.mem_cons_self messageId s.handlers)
  · intro h1 h2; subst h1; subst h2; rfl

/-- C2 amended witness: a fresh correlation id under a serialization failure
and under a send failure. -/
theorem contactToServer_transmit_failure_witness :
    ((⟨[], []⟩ : CorrState).handlers.contains "x" = false) ∧
    ((contactToServerSync ⟨[], []⟩ "x" false true).resolutions
        = ([] : List (String × Response)) ++ [("x", sendFailResponse)] ∧
     (contactToServerSync ⟨[], []⟩ "x" false true).handlers.contains "x" = false) :=
  ⟨rfl, (contactToServer_transmit_failure ⟨[], []⟩ "x" false true rfl).1 rfl⟩

/-! ## Coordinator teardown -/

/-- C8: the coordinator's shared close is idempotent: the first invocation
destroys every owned session window, unregisters the `contact` action-routing
handler and invokes the external teardown callback exactly once; a second
invocation is a no-op, so two closes still invoke the teardown exactly once,
and routing a local action to any surface id after the first close fails. -/
theorem coordinator_close_idempotent :
    ∀ s : CoordState, s.isClosed = false → s.stopGameCount = 0 →
      (coordClose s).stopGameCount = 1 ∧
      (coordClose s).contactHandlerRegistered = false ∧
      (∀ c ∈ (coordClose s).clients, c.windowAlive = false) ∧
      coordClose (coordClose s) = coordClose s ∧
      (coordClose (coordClose s)).stopGameCount = 1 ∧
      (∀ senderId : Nat, ∃ e, routeContact (coordClose s) senderId = .error e) := by
  intro s h0 hc
  refine ⟨?_, ?_, ?_, ?_, ?_, ?_⟩
  · simp [coordClose, h0, hc]
  · simp [coordClose, h0]
  · intro c hcm
    simp [coordClose, h0] at hcm
    obtain ⟨a, -, rfl⟩ := hcm
    rfl
  · simp [coordClose, h0]
  · simp [coordClose, h0, hc]
  · intro senderId
    exact ⟨"No handler registered", by simp [coordClose, h0, routeContact]⟩

/-- C8 witness: a concrete open coordinator owning two sessions. -/
theorem coordinator_close_idempotent_witness :
    ((⟨false, [⟨7, true⟩, ⟨9, true⟩], true, 0⟩ : CoordState).isClosed = false ∧
     (⟨false, [⟨7, true⟩, ⟨9, true⟩], true, 0⟩ : CoordState).stopGameCount = 0) ∧
    (coordClose (coordClose ⟨false, [⟨7, true⟩, ⟨9, true⟩], true, 0⟩)).stopGameCount
      = 1 :=
  ⟨⟨rfl, rfl⟩,
   (coordinator_close_idempotent ⟨false, [⟨7, true⟩, ⟨9, true⟩], true, 0⟩
      rfl rfl).2.2.2.2.1⟩

end USTCchess
